import Mathlib

/-!
Verification of the trajectory-integration and object-tracking core of
`compute_trajectories.py` (Trajectories repository).

The Python source is shallowly embedded: numpy float arrays become lists of
rationals (`ℚ`), real-valued trigonometry (`phase`) is embedded over `ℝ`
using `Complex.arg` as the model of `np.arctan2`, vectorized array
operations become pointwise list operations, and Python `while` loops with
a loop variable that strictly increases while its bound never increases are
embedded as structural recursion on an explicit fuel argument that is large
enough for the loop to reach its exit condition before the fuel runs out.
-/

/-! ## Forward advection step (`forward_trajectory_step`)

A particle position is a triple `(x, y, z)` of grid-unit coordinates.
A trajectory is a list (one entry per recorded time, earliest first, as
built by `trajectory_init` / `back_trajectory_step.insert(0, ...)` and
`forward_trajectory_step.append(...)`) of per-time position lists.
-/

/-- One 3D position, in grid units: `(x, y, z)`. -/
def Pos3 : Type := ℚ × ℚ × ℚ

instance : DecidableEq Pos3 := by unfold Pos3; infer_instance

/-- Elementwise `2*a - b` on positions, the numpy expression
`2*trajectory[0]-trajectory[1]` applied to one particle. -/
def extrapolate2 (a b : Pos3) : Pos3 :=
  (2 * a.1 - b.1, 2 * a.2.1 - b.2.1, 2 * a.2.2 - b.2.2)

/-- The fixed-point seed actually computed by `forward_trajectory_step`
(line `traj_pos_next_est = 2*trajectory[0]-trajectory[1]`): it extrapolates
from `trajectory[0]` and `trajectory[1]`, the positions at the two EARLIEST
recorded time steps. -/
def forward_seed_code (trajectory : List (List Pos3)) : List Pos3 :=
  (trajectory.getD 0 []).zipWith extrapolate2 (trajectory.getD 1 [])

/-- Modelled from the spec: the seed the spec describes, the linear
extrapolation `2*p[t] - p[t-1]` from the two MOST RECENT recorded positions
(`trajectory[-1]` and `trajectory[-2]`). -/
def forward_seed_spec (trajectory : List (List Pos3)) : List Pos3 :=
  (trajectory.getD (trajectory.length - 1) []).zipWith extrapolate2
    (trajectory.getD (trajectory.length - 2) [])

/-- Squared coordinates of a position (elementwise `diff**2`). -/
def sq3 (d : Pos3) : Pos3 := (d.1 * d.1, d.2.1 * d.2.1, d.2.2 * d.2.2)

/-- Elementwise sum of two triples. -/
def add3 (a b : Pos3) : Pos3 := (a.1 + b.1, a.2.1 + b.2.1, a.2.2 + b.2.2)

/-- The error accumulation in `forward_trajectory_step` as written in the
source:

```
mag_diff = 0
for i in range(3):
    mag_diff += diff[i,:]**2
```

`diff` has shape `(n_particles, 3)` (`diff = traj_pos_at_est - traj_pos`,
and the wrap-around fixup just above indexes it as `diff[:,0]`,
`diff[:,1]`), so `diff[i,:]` is the row of particle `i`: the loop sums the
squared coordinate triples of the FIRST THREE PARTICLES, producing one
value per coordinate.  When there are fewer than three particles the
indexing `diff[2,:]` raises `IndexError`, which is embedded as `none`. -/
def mag_diff_code (diff : List Pos3) : Option Pos3 :=
  match diff with
  | d0 :: d1 :: d2 :: _ => some (add3 (add3 (sq3 d0) (sq3 d1)) (sq3 d2))
  | _ => none

/-- `err = np.max(mag_diff)` over the three accumulated components. -/
def err_code (diff : List Pos3) : Option ℚ :=
  (mag_diff_code diff).map (fun m => max m.1 (max m.2.1 m.2.2))

/-- Modelled from the spec: the per-particle squared-distance error the
claim describes, `err_k = dx_k^2 + dy_k^2 + dz_k^2` for each particle `k`. -/
def per_particle_err_spec (diff : List Pos3) : List ℚ :=
  diff.map (fun d => d.1 * d.1 + d.2.1 * d.2.1 + d.2.2 * d.2.2)

/-- The convergence tolerance `errtol_iter = 1E-4` of
`forward_trajectory_step`. -/
def errtol_iter : ℚ := 1 / 10000

/-- The pass of one particle through the re-clipping block at the end of each
`forward_trajectory_step` iteration:

```
traj_pos_next_est[:,0][ traj_pos_next_est[:,0] <   0 ] += nx
traj_pos_next_est[:,0][ traj_pos_next_est[:,0] >= nx ] -= nx
traj_pos_next_est[:,1][ traj_pos_next_est[:,1] <   0 ] += ny
traj_pos_next_est[:,1][ traj_pos_next_est[:,1] >= ny ] -= ny
traj_pos_next_est[:,2][ traj_pos_next_est[:,2] <   0 ]  = 0
traj_pos_next_est[:,2][ traj_pos_next_est[:,2] >= nz ]  = nz
```

The masked assignments are applied in source order, each one reading the
array as left by the previous one. -/
def reclip (nx ny nz : ℚ) (p : Pos3) : Pos3 :=
  let x := p.1
  let x := if x < 0 then x + nx else x
  let x := if nx ≤ x then x - nx else x
  let y := p.2.1
  let y := if y < 0 then y + ny else y
  let y := if ny ≤ y then y - ny else y
  let z := p.2.2
  let z := if z < 0 then 0 else z
  let z := if nz ≤ z then nz else z
  (x, y, z)

/-! ## Bounding-box overlap (`box_overlap_with_wrap`)

A box is a pair (min-corner, max-corner), the rows `b[0,:]` and `b[1,:]`
of the `[2,3]` corner arrays stored in `traj_box` / `in_obj_box`. -/

/-- An axis-aligned box: `(min corner, max corner)`. -/
def Box : Type := Pos3 × Pos3

instance : DecidableEq Box := by unfold Box; infer_instance

/-- The default box used for out-of-range list indexing. -/
def box0 : Box := ((0, 0, 0), (0, 0, 0))

/-- The x-axis test of `box_overlap_with_wrap`: the disjunction of the four
containment relations `t1 ∨ t2 ∨ t3 ∨ t4` between the x-extents of `b_test`
and one box of `b_set`.  Despite the function name, the source comment
says `Wrap not yet implemented` and no periodic shift is applied. -/
def x_overlap_test (b_test b : Box) : Bool :=
  (b.1.1 ≤ b_test.1.1 ∧ b_test.1.1 ≤ b.2.1) ∨
  (b.1.1 ≤ b_test.2.1 ∧ b_test.2.1 ≤ b.2.1) ∨
  (b_test.1.1 ≤ b.1.1 ∧ b.2.1 ≤ b_test.2.1) ∨
  (b.1.1 ≤ b_test.1.1 ∧ b_test.2.1 ≤ b.2.1)

/-- The y-axis test of `box_overlap_with_wrap` (same four relations on the
y-extents). -/
def y_overlap_test (b_test b : Box) : Bool :=
  (b.1.2.1 ≤ b_test.1.2.1 ∧ b_test.1.2.1 ≤ b.2.2.1) ∨
  (b.1.2.1 ≤ b_test.2.2.1 ∧ b_test.2.2.1 ≤ b.2.2.1) ∨
  (b_test.1.2.1 ≤ b.1.2.1 ∧ b.2.2.1 ≤ b_test.2.2.1) ∨
  (b.1.2.1 ≤ b_test.1.2.1 ∧ b_test.2.2.1 ≤ b.2.2.1)

/-- `box_overlap_with_wrap(b_test, b_set, nx, ny)`: indices `x_ind` of
boxes passing the x test, then of those the indices passing the y test
(`x_ind[y_ind]`).  The grid sizes `nx, ny` are accepted but unused by the
source (`# Wrap not yet implemented`). -/
def box_overlap_with_wrap (b_test : Box) (b_set : List Box) (nx ny : ℚ) : List ℕ :=
  let _ := nx
  let _ := ny
  let x_ind := (List.range b_set.length).filter
    (fun i => x_overlap_test b_test (b_set.getD i box0))
  x_ind.filter (fun i => y_overlap_test b_test (b_set.getD i box0))

/-! ## Fractional point-set overlap (`refine_object_overlap`)

`extract_obj_as1Dint` rounds each selected particle position with
`(tr + 0.5).astype(int)` (numpy `astype(int)` truncates toward zero) and
encodes it as the single integer `x + nx*(y + ny*z)`; `np.unique`
deduplicates.  The mask selection `tr = tr[mask,:]` is data plumbing done
by the caller via `in_obj_func`; the embedding receives the already-masked
position list. -/

/-- Truncation toward zero, the behaviour of numpy `astype(int)`. -/
def astype_int (q : ℚ) : ℤ :=
  if q < 0 then ⌈q⌉ else ⌊q⌋

/-- `extract_obj_as1Dint`: unique 1D grid-cell ids
`x + nx*(y + ny*z)` of the rounded positions. -/
def extract_obj_as1Dint (nx ny : ℤ) (pts : List Pos3) : List ℤ :=
  (pts.map (fun p =>
    astype_int (p.1 + 1/2) +
      nx * (astype_int (p.2.1 + 1/2) + ny * astype_int (p.2.2 + 1/2)))).dedup

/-- The final fraction of `refine_object_overlap`:

```
max_size = np.max([np.size(tr1D),np.size(trm1D)])
if max_size > 0 :
    intersection = np.size(np.intersect1d(tr1D,trm1D))/max_size
else :
    intersection = 0
```

Note the denominator is the size of the LARGER of the two id sets, not of
their union. -/
def overlap_fraction (tr1D trm1D : List ℤ) : ℚ :=
  let max_size := max tr1D.length trm1D.length
  if 0 < max_size then ((tr1D.inter trm1D).length : ℚ) / (max_size : ℚ) else 0

/-- `refine_object_overlap` on the two already-masked point lists of the
master object and the candidate earlier object. -/
def refine_object_overlap (nx ny : ℤ) (ptsA ptsB : List Pos3) : ℚ :=
  overlap_fraction (extract_obj_as1Dint nx ny ptsA) (extract_obj_as1Dint nx ny ptsB)

/-- Modelled from the spec: fractional overlap as true intersection over
union of the two id sets, the quantity the claim says the code computes. -/
def overlap_fraction_iou (tr1D trm1D : List ℤ) : ℚ :=
  if 0 < ((tr1D ++ trm1D).dedup.length) then
    ((tr1D.inter trm1D).dedup.length : ℚ) / ((tr1D ++ trm1D).dedup.length : ℚ)
  else 0

/-- The default overlap threshold `overlap_thresh=0.02` of
`matching_object_list_summary`. -/
def overlap_thresh_default : ℚ := 2 / 100

/-- The acceptance test `if inter > overlap_thresh` of
`matching_object_list_summary`. -/
def overlap_accepts (thresh inter : ℚ) : Bool := thresh < inter

/-! ## Phase decoding (`phase`)

`np.arctan2(vi, vr)` returns the angle of the point `(vr, vi)` in
`(-pi, pi]`, which is exactly `Complex.arg (vr + vi * I)`; the float
arithmetic is embedded over `ℝ`. -/

open Real in
/-- `phase(vr, vi, n)`:

```
vpos = (np.arctan2(vi,vr))/(2.0*np.pi) * n
vpos[vpos<0] += n
```
-/
noncomputable def phase (vr vi n : ℝ) : ℝ :=
  let vpos := Complex.arg (vr + vi * Complex.I) / (2 * π) * n
  if vpos < 0 then vpos + n else vpos

/-! ## Trilinear interpolation (`whichbox`, `tri_lin_interp`)

The coordinate vectors built by `trajectory_init` are
`np.arange(n)` as floats, i.e. `0, 1, ..., n-1`; a 3D field is a
function of the three integer indices. `np.searchsorted(xvec, x, side=left)`
on a sorted vector is the number of entries strictly below `x`. -/

/-- The grid coordinate vector `np.arange(n)` as floats. -/
def arangeQ (n : ℕ) : List ℚ := (List.range n).map (fun i : ℕ => (i : ℚ))

/-- `whichbox(xvec, x)`:

```
ix = np.searchsorted(xvec, x, side=left)-1
ix[ix > (len(xvec)-1)] = len(xvec)-1
ix[ix < 0] = 0
```
-/
def whichbox (xvec : List ℚ) (x : ℚ) : ℕ :=
  let ix : ℤ := (xvec.countP (fun v => decide (v < x)) : ℤ) - 1
  let ix := if (xvec.length : ℤ) - 1 < ix then (xvec.length : ℤ) - 1 else ix
  let ix := if ix < 0 then 0 else ix
  ix.toNat

/-- `tri_lin_interp` for a single 3D field `data`.  The source iterates the
corner loops `for i in range(0,2): for j ...: for k ...` accumulating
`w = wx[i]*wy[j]*wz[k]` times `data[(ix+i)%nx, (iy+j)%ny, iz+k]`; the eight
terms are written out explicitly here.  `dx = dy = 1.0`. -/
def tri_lin_interp (data : ℕ → ℕ → ℕ → ℚ) (pos : Pos3)
    (xcoord ycoord zcoord : List ℚ) : ℚ :=
  let nx := xcoord.length
  let ny := ycoord.length
  let nz := zcoord.length
  let ix := whichbox xcoord pos.1
  let iy := whichbox ycoord pos.2.1
  let iz0 := whichbox zcoord pos.2.2
  let iz := if (nz : ℤ) - 2 < (iz0 : ℤ) then iz0 - 1 else iz0
  let dx : ℚ := 1
  let dy : ℚ := 1
  let xp := (pos.1 - xcoord.getD ix 0) / dx
  let yp := (pos.2.1 - ycoord.getD iy 0) / dy
  let zp := (pos.2.2 - zcoord.getD iz 0) / (zcoord.getD (iz + 1) 0 - zcoord.getD iz 0)
  (1 - xp) * (1 - yp) * (1 - zp) * data (ix % nx) (iy % ny) iz +
  (1 - xp) * (1 - yp) * zp * data (ix % nx) (iy % ny) (iz + 1) +
  (1 - xp) * yp * (1 - zp) * data (ix % nx) ((iy + 1) % ny) iz +
  (1 - xp) * yp * zp * data (ix % nx) ((iy + 1) % ny) (iz + 1) +
  xp * (1 - yp) * (1 - zp) * data ((ix + 1) % nx) (iy % ny) iz +
  xp * (1 - yp) * zp * data ((ix + 1) % nx) (iy % ny) (iz + 1) +
  xp * yp * (1 - zp) * data ((ix + 1) % nx) ((iy + 1) % ny) iz +
  xp * yp * zp * data ((ix + 1) % nx) ((iy + 1) % ny) (iz + 1)

/-! ## Object declustering (`unsplit_objects` / `unsplit_object`)

`unsplit_object` partitions the points of the object with
`sklearn.cluster.KMeans` (an external, randomly-initialised collaborator)
and shifts minority clusters by `±nx`/`±ny`; it is abstracted here as an
arbitrary function `unsplit : List Pos3 → List Pos3` and every theorem
about `unsplit_objects` is proved for every such function.
`unsplit_objects` only invokes it when the per-time spread test fires. -/

/-- `trajectory[it, labels == iobj, :]`: the positions of object `iobj`
in one per-time row, in order. -/
def objPositions (labels : List ℕ) (row : List Pos3) (iobj : ℕ) : List Pos3 :=
  ((labels.zip row).filter (fun lp => lp.1 == iobj)).map (fun lp => lp.2)

/-- `np.max` of the x coordinates (`0` on an empty selection; the source
would raise there, but `unsplit_objects` only evaluates it on the points
of an existing object). -/
def maxX (tr : List Pos3) : ℚ := ((tr.map (fun p => p.1)).max?).getD 0

/-- `np.min` of the x coordinates. -/
def minX (tr : List Pos3) : ℚ := ((tr.map (fun p => p.1)).min?).getD 0

/-- `np.max` of the y coordinates. -/
def maxY (tr : List Pos3) : ℚ := ((tr.map (fun p => p.2.1)).max?).getD 0

/-- `np.min` of the y coordinates. -/
def minY (tr : List Pos3) : ℚ := ((tr.map (fun p => p.2.1)).min?).getD 0

/-- The spread test of `unsplit_objects`:
`((np.max(tr[:,0])-np.min(tr[:,0])) > nx/2) or (... > ny/2)`. -/
def spread_test (nx ny : ℚ) (tr : List Pos3) : Bool :=
  (nx / 2 < maxX tr - minX tr) ∨ (ny / 2 < maxY tr - minY tr)

/-- The scatter-assignment
`trajectory[it, labels == iobj, :] = newvals`: entries whose label equals
`iobj` are replaced by the successive elements of `newvals`, all other
entries are kept. -/
def scatterObj (iobj : ℕ) : List (ℕ × Pos3) → List Pos3 → List Pos3
  | [], _ => []
  | lp :: rest, newvals =>
    if lp.1 == iobj then
      newvals.headD lp.2 :: scatterObj iobj rest (newvals.drop 1)
    else
      lp.2 :: scatterObj iobj rest newvals

/-- One per-time row of the `unsplit_objects` body for one object. -/
def unsplitRow (unsplit : List Pos3 → List Pos3) (labels : List ℕ)
    (nx ny : ℚ) (iobj : ℕ) (row : List Pos3) : List Pos3 :=
  let tr := objPositions labels row iobj
  if spread_test nx ny tr then
    scatterObj iobj (labels.zip row) (unsplit tr)
  else
    row

/-- `unsplit_objects(trajectory, labels, nobjects, nx, ny)`: the loop
`for iobj in range(0, nobjects): for it in range(0, nt): ...` mutating the
trajectory array in place, embedded as a fold over object ids of a map
over the per-time rows. -/
def unsplit_objects (unsplit : List Pos3 → List Pos3)
    (trajectory : List (List Pos3)) (labels : List ℕ) (nobjects : ℕ)
    (nx ny : ℚ) : List (List Pos3) :=
  (List.range nobjects).foldl
    (fun traj iobj => traj.map (unsplitRow unsplit labels nx ny iobj))
    trajectory

/-! ## Degenerate objects in `matching_object_list`

The inner loop over `iobj in select` is

```
for iobj in select :
    if traj.num_in_obj[ref_time, iobj] > 0 :
        b_test = ...
        if (match_time >= 0) & (match_time < ...) :
            b_set = ...
            corr_box = box_overlap_with_wrap(b_test, b_set, ...)
            valid = (match_traj.num_in_obj[match_time, corr_box]>0)
            corr_box = corr_box[valid]
    matching_object_at_time.append(corr_box)
```

`corr_box` is a plain local: when `num_in_obj == 0` (or `match_time` is
out of range) it is NOT reassigned, and the `append` sees either the value
left over from a previous object (stale) or, if no object has assigned it
yet, an unbound name — a `NameError` that aborts the computation, embedded
as `none`.  The candidate computation (`box_overlap_with_wrap` plus the
`valid` filter) is a per-object value supplied as `cand`. -/

/-- The `for iobj in select` loop of `matching_object_list` at one
`(t_off, it_back)`: `corr` carries the current binding of the local
`corr_box` (`none` = not yet assigned). -/
def matching_at_time (num_in_obj : ℕ → ℕ) (in_range : Bool)
    (cand : ℕ → List ℕ) : List ℕ → Option (List ℕ) → Option (List (List ℕ))
  | [], _ => some []
  | iobj :: rest, corr0 =>
    let corr := if 0 < num_in_obj iobj then
        (if in_range then some (cand iobj) else corr0)
      else corr0
    match corr with
    | none => none
    | some c => (matching_at_time num_in_obj in_range cand rest (some c)).map
        (fun l => c :: l)

/-! ## Cyclic connected-component labelling (`label_3D_cyclic`)

The baseline pass `labels, nobjects = ndimage.label(mask)` is an external
collaborator (scipy); its documented contract — background cells get `0`
and object cells get labels `1..nobjects`, each such label occupied — is
taken as a hypothesis, and the embedding starts from that raw output
(`labels0, nobjects0`) followed by the `labels -= 1` shift of the source.

A label array is the parallel pair of the raster-order cell list `cells`
and the label list `labs`. `np.where(labs == i)` becomes the sub-list of
cells carrying label `i`; the coordinate extraction `posi[x_or_y]`,
`posi[1-x_or_y]`, `posi[2]` becomes a map over that sub-list.  The two
`while` loops run on fuel: the loop variables `i` / `j` strictly increase
and `nobjs` never increases, so fuel `nobjs` makes the guard fail before
the fuel does. -/

/-- A grid cell `(x, y, z)`. -/
def Cell : Type := ℕ × ℕ × ℕ

instance : DecidableEq Cell := by unfold Cell; infer_instance

/-- `np.where(labs == i)` over the parallel cell/label lists. -/
def whereLabel (cells : List Cell) (labs : List ℤ) (i : ℤ) : List Cell :=
  ((cells.zip labs).filter (fun cl => cl.2 == i)).map (fun cl => cl.1)

/-- `posi[x_or_y]` for one cell. -/
def coordOf (xy : ℕ) (c : Cell) : ℕ := if xy = 0 then c.1 else c.2.1

/-- `posi[1-x_or_y]` for one cell. -/
def otherCoordOf (xy : ℕ) (c : Cell) : ℕ := if xy = 0 then c.2.1 else c.1

/-- The inner `relabel(labs, nobjs, i, j)` of `label_3D_cyclic`:
`labs[labs == j] = i`, then the ascending loop
`for k in range(j+1, nobjs): labs[labs == k] = k-1`, whose net effect is
the pointwise map below; the caller also decrements `nobjs`. -/
def relabel (labs : List ℤ) (nobjs : ℕ) (i j : ℤ) : List ℤ :=
  labs.map (fun l => if l = j then i else if j < l ∧ l < (nobjs : ℤ) then l - 1 else l)

/-- `np.min(posi[x_or_y][:]) == 0`. -/
def touchesMin (xy : ℕ) (pos : List Cell) : Bool :=
  (pos.map (coordOf xy)).min? == some 0

/-- `np.max(posi[x_or_y][:]) == (n-1)`. -/
def touchesMax (xy n : ℕ) (pos : List Cell) : Bool :=
  (pos.map (coordOf xy)).max? == some (n - 1)

/-- The merge test of `find_objects_at_edge`: restrict `posi` (resp.
`posj`) to its boundary face, then require the orthogonal horizontal
coordinates to intersect (`np.intersect1d`) AND the z coordinates to
intersect. -/
def edgeMergeTest (minflag : Bool) (xy n : ℕ) (posi posj : List Cell) : Bool :=
  let bi : ℕ := if minflag then 0 else n - 1
  let bj : ℕ := if minflag then n - 1 else 0
  let ilist := posi.filter (fun c => coordOf xy c == bi)
  let jlist := posj.filter (fun c => coordOf xy c == bj)
  (!((ilist.map (otherCoordOf xy)).inter (jlist.map (otherCoordOf xy))).isEmpty) &&
  (!((ilist.map (fun c => c.2.2)).inter (jlist.map (fun c => c.2.2))).isEmpty)

/-- The inner `while j < (nobjs-1)` loop of `find_objects_at_edge`.  The
stale `posi` captured before the loop is passed in unchanged, exactly as in
the source (it is not recomputed after a merge). -/
def edgeInner (minflag : Bool) (xy n : ℕ) (cells : List Cell)
    (posi : List Cell) (i : ℕ) : ℕ → List ℤ → ℕ → ℕ → List ℤ × ℕ
  | 0, labs, nobjs, _ => (labs, nobjs)
  | fuel + 1, labs, nobjs, j =>
    if j + 1 < nobjs then
      let posj := whereLabel cells labs (j : ℤ)
      let test2 := if minflag then touchesMax xy n posj else touchesMin xy posj
      if test2 && edgeMergeTest minflag xy n posi posj then
        edgeInner minflag xy n cells posi i fuel
          (relabel labs nobjs (i : ℤ) (j : ℤ)) (nobjs - 1) (j + 1)
      else
        edgeInner minflag xy n cells posi i fuel labs nobjs (j + 1)
    else (labs, nobjs)

/-- The outer `while i < (nobjs-2)` loop of `find_objects_at_edge`. -/
def edgeOuter (minflag : Bool) (xy n : ℕ) (cells : List Cell) :
    ℕ → List ℤ → ℕ → ℕ → List ℤ × ℕ
  | 0, labs, nobjs, _ => (labs, nobjs)
  | fuel + 1, labs, nobjs, i =>
    if i + 2 < nobjs then
      let posi := whereLabel cells labs (i : ℤ)
      let test1 := if minflag then touchesMin xy posi else touchesMax xy n posi
      let r := if test1 then
          edgeInner minflag xy n cells posi i nobjs labs nobjs (i + 1)
        else (labs, nobjs)
      edgeOuter minflag xy n cells fuel r.1 r.2 (i + 1)
    else (labs, nobjs)

/-- `find_objects_at_edge(minflag, x_or_y, n, labs, nobjs)`. -/
def find_objects_at_edge (minflag : Bool) (xy n : ℕ) (cells : List Cell)
    (labs : List ℤ) (nobjs : ℕ) : List ℤ × ℕ :=
  edgeOuter minflag xy n cells nobjs labs nobjs 0

/-- `label_3D_cyclic(mask)` downstream of the external baseline labelling:
`labels -= 1` followed by the four boundary-merge passes
(x min, x max, y min, y max). -/
def label_3D_cyclic (nx ny : ℕ) (cells : List Cell)
    (labels0 : List ℕ) (nobjects0 : ℕ) : List ℤ × ℕ :=
  let labs := labels0.map (fun l : ℕ => (l : ℤ) - 1)
  let r1 := find_objects_at_edge true 0 nx cells labs nobjects0
  let r2 := find_objects_at_edge false 0 nx cells r1.1 r1.2
  let r3 := find_objects_at_edge true 1 ny cells r2.1 r2.2
  find_objects_at_edge false 1 ny cells r3.1 r3.2

/-- The invariant of the claim: every entry is `-1` or lies in
`[0, nobjs)`, and every label in `[0, nobjs)` is occupied. -/
def LabelInv (labs : List ℤ) (nobjs : ℕ) : Prop :=
  (∀ l ∈ labs, l = -1 ∨ (0 ≤ l ∧ l < (nobjs : ℤ))) ∧
  (∀ m : ℕ, m < nobjs → (m : ℤ) ∈ labs)

/-! ## Claim C1 -/

/-- The `diff` matrix of a four-particle step in which the first three
particles are exactly converged and the fourth is one grid unit off. -/
def diffC1 : List Pos3 := [(0, 0, 0), (0, 0, 0), (0, 0, 0), (1, 0, 0)]

/-- C1: the convergence error of `forward_trajectory_step` is NOT computed
per particle: `mag_diff` sums `diff[i,:]**2` over the first three particle
ROWS, one value per coordinate.  On `diffC1` the error of the code is `0`
(below `errtol_iter`, so the iteration stops) although the squared
distance of the fourth particle is `1`; and with a single particle the row
indexing `diff[2,:]` raises `IndexError` (embedded as `none`). -/
theorem forward_step_error_not_per_particle :
    err_code diffC1 = some 0 ∧
    per_particle_err_spec diffC1 = [0, 0, 0, 1] ∧
    errtol_iter < 1 ∧
    mag_diff_code [((1 : ℚ), 0, 0)] = none := by
  refine ⟨?_, ?_, ?_, ?_⟩
  · simp [err_code, mag_diff_code, diffC1, add3, sq3]
  · simp [per_particle_err_spec, diffC1]
  · norm_num [errtol_iter]
  · rfl

/-! ## Claim C2 -/

/-- A trajectory with three recorded times: x positions `0`, `1`, `5` for
its single particle, earliest first. -/
def trajC2 : List (List Pos3) := [[(0, 0, 0)], [(1, 0, 0)], [(5, 0, 0)]]

/-- C2: the seed of the forward solve is NOT the extrapolation from the two most
recent positions: on `trajC2` the code (`2*trajectory[0]-trajectory[1]`)
extrapolates from the two EARLIEST positions, giving `x = -1`, while the
extrapolation `2*p[t] - p[t-1]` from the two most recent positions gives
`x = 9`. -/
theorem forward_seed_uses_earliest_positions :
    forward_seed_code trajC2 = [(-1, 0, 0)] ∧
    forward_seed_spec trajC2 = [(9, 0, 0)] ∧
    forward_seed_code trajC2 ≠ forward_seed_spec trajC2 := by
  refine ⟨?_, ?_, ?_⟩
  · simp [forward_seed_code, trajC2, extrapolate2]
  · simp [forward_seed_spec, trajC2, extrapolate2]
    norm_num [Prod.ext_iff]
  · intro h
    have h0 := congrArg (fun l => (l.headD (0, 0, 0)).1) h
    simp [forward_seed_code, forward_seed_spec, trajC2, extrapolate2] at h0
    norm_num at h0

/-! ## Claim C3 -/

/-- C3: the final re-clipping does NOT keep `z` inside `[0, nz-1]`: on the
`8 × 8 × 4` grid a particle at `z = 4.5 ≥ nz` is set to `z = nz = 4`,
outside `[0, nz-1] = [0, 3]` (and outside `[0, nz)`). -/
theorem forward_reclip_z_escapes_domain :
    reclip 8 8 4 ((1 : ℚ), 1, 9 / 2) = (1, 1, 4) ∧
    ¬ ((reclip 8 8 4 ((1 : ℚ), 1, 9 / 2)).2.2 ≤ 4 - 1) := by
  refine ⟨?_, ?_⟩
  · norm_num [reclip, Prod.ext_iff]
  · norm_num [reclip]

/-! ## Claim C10 -/

/-- C10: a master object with `num_in_obj == 0` is not skipped with an
empty candidate list: the `append` re-uses the stale `corr_box` of the
previous object (object `1` receives the candidates `[3]` of object `0`), and
when the degenerate object comes first, `corr_box` is unbound and the
computation aborts with `NameError` (embedded as `none`). -/
theorem matching_object_list_degenerate_not_skipped :
    matching_at_time (fun i => if i = 0 then 2 else 0) true (fun _ => [3])
      [0, 1] none = some [[3], [3]] ∧
    matching_at_time (fun i => if i = 0 then 2 else 0) true (fun _ => [3])
      [1, 0] none = none := by
  decide

/-! ## Claim C4 -/

/-- Master-object points occupying grid cells `1` and `2` of a
`10 × 10` grid (ids `1` and `2`). -/
def ptsC4A : List Pos3 := [(1, 0, 0), (2, 0, 0)]

/-- Candidate-object points occupying grid cells `2` and `3` (ids `2`
and `3`). -/
def ptsC4B : List Pos3 := [(2, 0, 0), (3, 0, 0)]

/-- C4 counterexample: the fractional overlap is NOT intersection over
union: on id sets `{1,2}` and `{2,3}` the code returns
`|∩| / max(|A|,|B|) = 1/2`, while intersection over union is `1/3`. -/
theorem refine_object_overlap_not_intersection_over_union :
    refine_object_overlap 10 10 ptsC4A ptsC4B = 1 / 2 ∧
    overlap_fraction_iou (extract_obj_as1Dint 10 10 ptsC4A)
      (extract_obj_as1Dint 10 10 ptsC4B) = 1 / 3 ∧
    (1 : ℚ) / 2 ≠ 1 / 3 := by
  have h : (([1, 2] : List ℤ).inter [2, 3]) = [2] := by rfl
  refine ⟨?_, ?_, by norm_num⟩
  · norm_num [refine_object_overlap, overlap_fraction, extract_obj_as1Dint,
      astype_int, ptsC4A, ptsC4B, h]
  · norm_num [overlap_fraction_iou, extract_obj_as1Dint, astype_int,
      ptsC4A, ptsC4B, h]

/-- C4 amended: the fractional overlap returned by `refine_object_overlap`
is the size of the intersection of the two unique grid-cell id sets
divided by the size of the LARGER of the two sets (`0` when both are
empty), not by the size of their union. -/
theorem refine_object_overlap_is_inter_over_max_size (nx ny : ℤ)
    (ptsA ptsB : List Pos3) :
    refine_object_overlap nx ny ptsA ptsB =
      (if extract_obj_as1Dint nx ny ptsA = [] ∧ extract_obj_as1Dint nx ny ptsB = []
       then 0
       else (((extract_obj_as1Dint nx ny ptsA).toFinset ∩
           (extract_obj_as1Dint nx ny ptsB).toFinset).card : ℚ) /
         ((max (extract_obj_as1Dint nx ny ptsA).length
           (extract_obj_as1Dint nx ny ptsB).length : ℕ) : ℚ)) ∧
    ∀ q : ℚ, overlap_accepts overlap_thresh_default q = true ↔ 2 / 100 < q := by
  refine ⟨?_, ?_⟩
  · set A := extract_obj_as1Dint nx ny ptsA with hA
    set B := extract_obj_as1Dint nx ny ptsB with hB
    have hAnd : A.Nodup := List.nodup_dedup _
    have hiN : (A ∩ B).Nodup := hAnd.inter _
    have hinter : A.inter B = A ∩ B := rfl
    have hcard : (((A.toFinset ∩ B.toFinset).card : ℕ) : ℚ) =
        ((A.inter B).length : ℚ) := by
      rw [hinter, ← List.toFinset_inter, List.toFinset_card_of_nodup hiN]
    rw [refine_object_overlap, ← hA, ← hB, overlap_fraction, hcard]
    rcases Nat.eq_zero_or_pos (max A.length B.length) with h0 | h0
    · have hab := Nat.max_eq_zero_iff.mp h0
      have ha : A = [] := List.eq_nil_of_length_eq_zero hab.1
      have hb : B = [] := List.eq_nil_of_length_eq_zero hab.2
      rw [if_neg (by omega), if_pos ⟨ha, hb⟩]
    · rw [if_pos h0, if_neg]
      intro hab
      rw [hab.1, hab.2] at h0
      simp at h0
  · intro q
    simp [overlap_accepts, overlap_thresh_default]

/-! ## Claim C5 -/

/-- Modelled from the spec: two 1D closed intervals on a periodic axis of
length `n` overlap as periodic intervals iff shifting the first by some
whole number of periods makes the plain intervals intersect. -/
def periodic_interval_overlap (n a0 a1 b0 b1 : ℚ) : Prop :=
  ∃ kk : ℤ, a0 + kk * n ≤ b1 ∧ b0 ≤ a1 + kk * n

/-- C5 counterexample: `box_overlap_with_wrap` is not wrap-aware.  On the
`nx = ny = 8` grid, the declustered master box spanning `x ∈ [-1, 1]`
overlaps the earlier box `x ∈ [6, 7]` across the `x = 0`/`x = 8` seam
(shift by one period; the y extents overlap outright), yet the function
reports no overlap. -/
theorem box_overlap_with_wrap_misses_seam :
    box_overlap_with_wrap ((-1, 0, 0), (1, 1, 1)) [((6, 0, 0), (7, 1, 1))] 8 8 = [] ∧
    periodic_interval_overlap 8 (-1) 1 6 7 ∧
    periodic_interval_overlap 8 0 1 0 1 := by
  refine ⟨?_, ⟨1, by norm_num⟩, ⟨0, by norm_num⟩⟩
  norm_num [box_overlap_with_wrap, x_overlap_test, y_overlap_test, box0,
    List.filter]

/-- The four containment relations on ordered 1D intervals are exactly
plain (non-periodic) interval intersection. -/
theorem four_containments_iff (a0 a1 b0 b1 : ℚ) (ha : a0 ≤ a1) (hb : b0 ≤ b1) :
    ((b0 ≤ a0 ∧ a0 ≤ b1) ∨ (b0 ≤ a1 ∧ a1 ≤ b1) ∨ (a0 ≤ b0 ∧ b1 ≤ a1) ∨
      (b0 ≤ a0 ∧ a1 ≤ b1)) ↔ (a0 ≤ b1 ∧ b0 ≤ a1) := by
  constructor
  · rintro (⟨h1, h2⟩ | ⟨h1, h2⟩ | ⟨h1, h2⟩ | ⟨h1, h2⟩) <;>
      exact ⟨by linarith, by linarith⟩
  · rintro ⟨h1, h2⟩
    rcases le_or_lt b0 a0 with h3 | h3
    · exact Or.inl ⟨h3, h1⟩
    · rcases le_or_lt b1 a1 with h4 | h4
      · exact Or.inr (Or.inr (Or.inl ⟨le_of_lt h3, h4⟩))
      · exact Or.inr (Or.inl ⟨h2, le_of_lt h4⟩)

/-- The four containment relations are symmetric in the two intervals,
even without ordering assumptions. -/
theorem four_containments_symm (a0 a1 b0 b1 : ℚ) :
    ((b0 ≤ a0 ∧ a0 ≤ b1) ∨ (b0 ≤ a1 ∧ a1 ≤ b1) ∨ (a0 ≤ b0 ∧ b1 ≤ a1) ∨
      (b0 ≤ a0 ∧ a1 ≤ b1)) ↔
    ((a0 ≤ b0 ∧ b0 ≤ a1) ∨ (a0 ≤ b1 ∧ b1 ≤ a1) ∨ (b0 ≤ a0 ∧ a1 ≤ b1) ∨
      (a0 ≤ b0 ∧ b1 ≤ a1)) := by
  constructor
  · rintro (⟨h1, h2⟩ | ⟨h1, h2⟩ | ⟨h1, h2⟩ | ⟨h1, h2⟩)
    · rcases le_or_lt a1 b1 with h3 | h3
      · exact Or.inr (Or.inr (Or.inl ⟨h1, h3⟩))
      · exact Or.inr (Or.inl ⟨h2, le_of_lt h3⟩)
    · rcases le_or_lt a0 b0 with h3 | h3
      · exact Or.inl ⟨h3, h1⟩
      · exact Or.inr (Or.inr (Or.inl ⟨le_of_lt h3, h2⟩))
    · exact Or.inr (Or.inr (Or.inr ⟨h1, h2⟩))
    · exact Or.inr (Or.inr (Or.inl ⟨h1, h2⟩))
  · rintro (⟨h1, h2⟩ | ⟨h1, h2⟩ | ⟨h1, h2⟩ | ⟨h1, h2⟩)
    · rcases le_or_lt b1 a1 with h3 | h3
      · exact Or.inr (Or.inr (Or.inl ⟨h1, h3⟩))
      · exact Or.inr (Or.inl ⟨h2, le_of_lt h3⟩)
    · rcases le_or_lt b0 a0 with h3 | h3
      · exact Or.inl ⟨h3, h1⟩
      · exact Or.inr (Or.inr (Or.inl ⟨le_of_lt h3, h2⟩))
    · exact Or.inr (Or.inr (Or.inr ⟨h1, h2⟩))
    · exact Or.inr (Or.inr (Or.inl ⟨h1, h2⟩))

/-- C5 amended: `box_overlap_with_wrap` applies the four containment
relations WITHOUT periodic wrap (so seam-only overlaps are missed): for
ordered boxes it reports index `i` iff the plain x extents intersect and
the plain y extents intersect; the pairwise tests are symmetric. -/
theorem box_overlap_with_wrap_is_plain_overlap (b_test : Box)
    (b_set : List Box) (nx ny : ℚ) (i : ℕ)
    (hx : b_test.1.1 ≤ b_test.2.1) (hy : b_test.1.2.1 ≤ b_test.2.2.1)
    (hs : ∀ b ∈ b_set, b.1.1 ≤ b.2.1 ∧ b.1.2.1 ≤ b.2.2.1) :
    (i ∈ box_overlap_with_wrap b_test b_set nx ny ↔
      i < b_set.length ∧
      (b_test.1.1 ≤ (b_set.getD i box0).2.1 ∧ (b_set.getD i box0).1.1 ≤ b_test.2.1) ∧
      (b_test.1.2.1 ≤ (b_set.getD i box0).2.2.1 ∧
        (b_set.getD i box0).1.2.1 ≤ b_test.2.2.1)) ∧
    (∀ A B : Box, x_overlap_test A B = x_overlap_test B A ∧
      y_overlap_test A B = y_overlap_test B A) := by
  have hmem : i ∈ box_overlap_with_wrap b_test b_set nx ny ↔
      i < b_set.length ∧ x_overlap_test b_test (b_set.getD i box0) = true ∧
        y_overlap_test b_test (b_set.getD i box0) = true := by
    unfold box_overlap_with_wrap
    simp [List.mem_filter, List.mem_range, and_assoc]
    tauto
  have hb_of : i < b_set.length →
      ((x_overlap_test b_test (b_set.getD i box0) = true ↔
        (b_test.1.1 ≤ (b_set.getD i box0).2.1 ∧ (b_set.getD i box0).1.1 ≤ b_test.2.1)) ∧
       (y_overlap_test b_test (b_set.getD i box0) = true ↔
        (b_test.1.2.1 ≤ (b_set.getD i box0).2.2.1 ∧
          (b_set.getD i box0).1.2.1 ≤ b_test.2.2.1))) := by
    intro h1
    have hb := hs (b_set.getD i box0)
      (by rw [List.getD_eq_getElem _ _ h1]; exact List.getElem_mem h1)
    constructor
    · simp only [x_overlap_test, decide_eq_true_eq]
      exact four_containments_iff _ _ _ _ hx hb.1
    · simp only [y_overlap_test, decide_eq_true_eq]
      exact four_containments_iff _ _ _ _ hy hb.2
  refine ⟨?_, ?_⟩
  · rw [hmem]
    constructor
    · rintro ⟨h1, h2, h3⟩
      exact ⟨h1, ((hb_of h1).1).mp h2, ((hb_of h1).2).mp h3⟩
    · rintro ⟨h1, h2, h3⟩
      exact ⟨h1, ((hb_of h1).1).mpr h2, ((hb_of h1).2).mpr h3⟩
  · intro A B
    constructor
    · rw [x_overlap_test, x_overlap_test, decide_eq_decide]
      exact four_containments_symm A.1.1 A.2.1 B.1.1 B.2.1
    · rw [y_overlap_test, y_overlap_test, decide_eq_decide]
      exact four_containments_symm A.1.2.1 A.2.2.1 B.1.2.1 B.2.2.1

/-- The concrete unit box used to instantiate the box-overlap theorem. -/
def boxW : Box := ((0, 0, 0), (1, 1, 1))

/-- C5 witness: the plain-overlap characterisation instantiated at the
unit box tested against a one-element box set containing itself. -/
theorem box_overlap_with_wrap_is_plain_overlap_witness :
    (boxW.1.1 ≤ boxW.2.1) ∧ (boxW.1.2.1 ≤ boxW.2.2.1) ∧
    (∀ b ∈ [boxW], b.1.1 ≤ b.2.1 ∧ b.1.2.1 ≤ b.2.2.1) ∧
    ((0 ∈ box_overlap_with_wrap boxW [boxW] 8 8 ↔
      0 < [boxW].length ∧
      (boxW.1.1 ≤ ([boxW].getD 0 box0).2.1 ∧ ([boxW].getD 0 box0).1.1 ≤ boxW.2.1) ∧
      (boxW.1.2.1 ≤ ([boxW].getD 0 box0).2.2.1 ∧
        ([boxW].getD 0 box0).1.2.1 ≤ boxW.2.2.1)) ∧
    (∀ A B : Box, x_overlap_test A B = x_overlap_test B A ∧
      y_overlap_test A B = y_overlap_test B A)) := by
  have h1 : boxW.1.1 ≤ boxW.2.1 := by norm_num [boxW]
  have h2 : boxW.1.2.1 ≤ boxW.2.2.1 := by norm_num [boxW]
  have h3 : ∀ b ∈ [boxW], b.1.1 ≤ b.2.1 ∧ b.1.2.1 ≤ b.2.2.1 := by
    intro b hb
    rw [List.mem_singleton] at hb
    subst hb
    norm_num [boxW]
  exact ⟨h1, h2, h3, box_overlap_with_wrap_is_plain_overlap boxW [boxW] 8 8 0 h1 h2 h3⟩

/-! ## Claim C7 -/

open Real in
/-- Every value returned by `phase` lies in `[0, n)`: `arctan2` returns an
angle in `(-π, π]`, so the raw decoded position lies in `(-n/2, n/2]` and
the single `+= n` fixup lands it in `[0, n)`. -/
theorem phase_in_Ico (vr vi n : ℝ) (hn : 0 < n) :
    0 ≤ phase vr vi n ∧ phase vr vi n < n := by
  unfold phase
  set a := Complex.arg (vr + vi * Complex.I) with ha
  have h1 : -π < a := Complex.neg_pi_lt_arg _
  have h2 : a ≤ π := Complex.arg_le_pi _
  have hpi : (0 : ℝ) < π := Real.pi_pos
  have h2p : (0 : ℝ) < 2 * π := by linarith
  have hv1 : -(n / 2) < a / (2 * π) * n := by
    rw [div_mul_eq_mul_div, lt_div_iff₀ h2p]
    nlinarith [mul_lt_mul_of_pos_right h1 hn]
  have hv2 : a / (2 * π) * n ≤ n / 2 := by
    rw [div_mul_eq_mul_div, div_le_iff₀ h2p]
    nlinarith [mul_le_mul_of_nonneg_right h2 (le_of_lt hn)]
  dsimp only
  split_ifs with h
  · constructor <;> linarith
  · constructor <;> [linarith; linarith]

open Real in
/-- C7: phase decoding inverts phase encoding modulo the axis length: for
every real position `p` on a periodic axis of length `n > 0`, decoding the
unit vector whose angle encodes `p` returns `p mod n` (here
`p - n * ⌊p/n⌋`), and every value returned by `phase` lies in `[0, n)`. -/
theorem phase_round_trip (p n : ℝ) (hn : 0 < n) :
    phase (Real.cos (2 * π * p / n)) (Real.sin (2 * π * p / n)) n =
      p - n * ⌊p / n⌋ ∧
    ∀ vr vi : ℝ, 0 ≤ phase vr vi n ∧ phase vr vi n < n := by
  refine ⟨?_, fun vr vi => phase_in_Ico vr vi n hn⟩
  have hpi : (0 : ℝ) < π := Real.pi_pos
  have h2p : (0 : ℝ) < 2 * π := by linarith
  set θ := 2 * π * p / n with hθ
  have harg : Complex.arg (↑(Real.cos θ) + ↑(Real.sin θ) * Complex.I) =
      toIocMod h2p (-π) θ := by
    rw [Complex.ofReal_cos, Complex.ofReal_sin, ← Complex.exp_mul_I]
    exact Complex.arg_exp_mul_I θ
  set z := toIocDiv h2p (-π) θ with hz
  have hmod : toIocMod h2p (-π) θ = θ - z • (2 * π) :=
    eq_sub_of_add_eq (toIocMod_add_toIocDiv_zsmul h2p (-π) θ)
  have hv : toIocMod h2p (-π) θ / (2 * π) * n = p - (z : ℝ) * n := by
    rw [hmod, zsmul_eq_mul, hθ]
    field_simp
    ring
  have hex : ∃ m : ℤ, phase (Real.cos θ) (Real.sin θ) n = p - (m : ℝ) * n := by
    unfold phase
    rw [harg]
    dsimp only
    split_ifs with hneg
    · exact ⟨z - 1, by push_cast; rw [hv]; ring⟩
    · exact ⟨z, hv⟩
  obtain ⟨m, hm⟩ := hex
  have hb := phase_in_Ico (Real.cos θ) (Real.sin θ) n hn
  have hfloor : ⌊p / n⌋ = m := by
    rw [Int.floor_eq_iff]
    constructor
    · rw [le_div_iff₀ hn]
      nlinarith [hb.1, hm]
    · rw [div_lt_iff₀ hn]
      nlinarith [hb.2, hm]
  rw [hm, hfloor]
  ring

open Real in
/-- C7 witness: the round trip at `p = 0` on an axis of length `1`. -/
theorem phase_round_trip_witness :
    (0 : ℝ) < 1 ∧
    (phase (Real.cos (2 * π * 0 / 1)) (Real.sin (2 * π * 0 / 1)) 1 =
        0 - 1 * ⌊(0 : ℝ) / 1⌋ ∧
      ∀ vr vi : ℝ, 0 ≤ phase vr vi 1 ∧ phase vr vi 1 < 1) :=
  ⟨one_pos, phase_round_trip 0 1 one_pos⟩

/-! ## Claim C6 -/

/-- Length of the coordinate vector. -/
theorem arangeQ_length (n : ℕ) : (arangeQ n).length = n := by
  rw [arangeQ, List.length_map, List.length_range]

/-- `np.searchsorted` count on the arange grid: the number of grid values
strictly below the integer position `m` is `min m n`. -/
theorem arangeQ_countP (n m : ℕ) :
    (arangeQ n).countP (fun v => decide (v < (m : ℚ))) = min m n := by
  induction n with
  | zero => simp [arangeQ]
  | succ n ih =>
    rw [arangeQ, List.range_succ, List.map_append, List.countP_append]
    rw [arangeQ] at ih
    rw [ih]
    by_cases h : n < m
    · have hq : ((n : ℚ) < (m : ℚ)) := by exact_mod_cast h
      simp [hq]
      omega
    · have hq : ¬ ((n : ℚ) < (m : ℚ)) := by exact_mod_cast h
      simp [hq]
      omega

/-- Indexing the arange grid. -/
theorem arangeQ_getD (n t : ℕ) (h : t < n) : (arangeQ n).getD t 0 = (t : ℚ) := by
  rw [List.getD_eq_getElem _ _ (by simpa [arangeQ_length] using h)]
  simp only [arangeQ, List.getElem_map, List.getElem_range]

/-- `whichbox` at an integer grid position `m < n` returns `m - 1`
(with the truncated subtraction clamping `m = 0` to `0`). -/
theorem whichbox_arangeQ (n m : ℕ) (hm : m < n) :
    whichbox (arangeQ n) ((m : ℚ)) = m - 1 := by
  unfold whichbox
  rw [arangeQ_countP, arangeQ_length]
  have hmin : min m n = m := Nat.min_eq_left (le_of_lt hm)
  rw [hmin]
  dsimp only
  split_ifs <;> omega

/-- C6: trilinear interpolation is exact at grid nodes: for every 3D field
and every query position whose coordinates are exactly integer grid points
`(i, j, k)` (with `nz ≥ 2` so a z cell exists), `tri_lin_interp` returns
exactly the stored field value `data i j k`. -/
theorem tri_lin_interp_exact_at_nodes (data : ℕ → ℕ → ℕ → ℚ)
    (nx ny nz i j k : ℕ)
    (hi : i < nx) (hj : j < ny) (hk : k < nz) (hnz : 2 ≤ nz) :
    tri_lin_interp data ((i : ℚ), (j : ℚ), (k : ℚ))
      (arangeQ nx) (arangeQ ny) (arangeQ nz) = data i j k := by
  simp only [tri_lin_interp, arangeQ_length, whichbox_arangeQ nx i hi,
    whichbox_arangeQ ny j hj, whichbox_arangeQ nz k hk]
  rw [if_neg (by omega : ¬ ((nz : ℤ) - 2 < ((k - 1 : ℕ) : ℤ)))]
  rw [arangeQ_getD nx (i - 1) (by omega), arangeQ_getD ny (j - 1) (by omega),
    arangeQ_getD nz (k - 1) (by omega), arangeQ_getD nz (k - 1 + 1) (by omega)]
  have exi : ∀ v : ℕ, 1 ≤ v → v - 1 + 1 = v := by omega
  rcases Nat.eq_zero_or_pos i with hi0 | hip
  · subst hi0
    rcases Nat.eq_zero_or_pos j with hj0 | hjp
    · subst hj0
      rcases Nat.eq_zero_or_pos k with hk0 | hkp
      · subst hk0
        norm_num
      · rw [exi k hkp, Nat.cast_sub hkp]
        norm_num
    · rcases Nat.eq_zero_or_pos k with hk0 | hkp
      · subst hk0
        rw [exi j hjp, Nat.mod_eq_of_lt hj, Nat.cast_sub hjp]
        norm_num
      · rw [exi k hkp, Nat.cast_sub hkp, exi j hjp, Nat.mod_eq_of_lt hj,
          Nat.cast_sub hjp]
        norm_num
  · rcases Nat.eq_zero_or_pos j with hj0 | hjp
    · subst hj0
      rcases Nat.eq_zero_or_pos k with hk0 | hkp
      · subst hk0
        rw [exi i hip, Nat.mod_eq_of_lt hi, Nat.cast_sub hip]
        norm_num
      · rw [exi k hkp, Nat.cast_sub hkp, exi i hip, Nat.mod_eq_of_lt hi,
          Nat.cast_sub hip]
        norm_num
    · rcases Nat.eq_zero_or_pos k with hk0 | hkp
      · subst hk0
        rw [exi i hip, Nat.mod_eq_of_lt hi, Nat.cast_sub hip, exi j hjp,
          Nat.mod_eq_of_lt hj, Nat.cast_sub hjp]
        norm_num
      · rw [exi k hkp, Nat.cast_sub hkp, exi i hip, Nat.mod_eq_of_lt hi,
          Nat.cast_sub hip, exi j hjp, Nat.mod_eq_of_lt hj, Nat.cast_sub hjp]
        norm_num

/-- C6 witness: exactness at the node `(2, 1, 1)` of a `3 × 3 × 2` grid
for the field `x + 10 y + 100 z`. -/
theorem tri_lin_interp_exact_at_nodes_witness :
    (2 < 3 ∧ 1 < 3 ∧ 1 < 2 ∧ 2 ≤ 2) ∧
    tri_lin_interp (fun x y z => (x : ℚ) + 10 * y + 100 * z)
      (((2 : ℕ) : ℚ), ((1 : ℕ) : ℚ), ((1 : ℕ) : ℚ))
      (arangeQ 3) (arangeQ 3) (arangeQ 2) =
      (fun x y z => (x : ℚ) + 10 * y + 100 * z) 2 1 1 :=
  ⟨⟨by norm_num, by norm_num, by norm_num, le_refl 2⟩,
    tri_lin_interp_exact_at_nodes (fun x y z => (x : ℚ) + 10 * y + 100 * z)
      3 3 2 2 1 1 (by norm_num) (by norm_num) (by norm_num) (by norm_num)⟩

/-! ## Claim C8 -/

/-- A fold leaves its accumulator unchanged when every step does. -/
theorem list_foldl_fixed {α β : Type} (f : α → β → α) (l : List β) (a : α)
    (h : ∀ x ∈ l, f a x = a) : l.foldl f a = a := by
  induction l with
  | nil => rfl
  | cons x xs ih =>
    rw [List.foldl_cons, h x (by simp)]
    exact ih (fun y hy => h y (by simp [hy]))

/-- A map leaves a list unchanged when it fixes every element. -/
theorem list_map_fixed {α : Type} (l : List α) (f : α → α)
    (h : ∀ x ∈ l, f x = x) : l.map f = l := by
  rw [List.map_congr_left h]
  exact List.map_id l

/-- C8: declustering is a no-op on unified inputs: if the x-spread
of every object is at most `nx/2` and its y-spread at most `ny/2` at every time,
`unsplit_objects` returns the trajectory unchanged — for EVERY inner
`unsplit_object` routine (the KMeans step is never invoked). -/
theorem unsplit_objects_noop (unsplit : List Pos3 → List Pos3)
    (trajectory : List (List Pos3)) (labels : List ℕ) (nobjects : ℕ) (nx ny : ℚ)
    (h : ∀ iobj, iobj < nobjects → ∀ row ∈ trajectory,
      maxX (objPositions labels row iobj) - minX (objPositions labels row iobj) ≤ nx / 2 ∧
      maxY (objPositions labels row iobj) - minY (objPositions labels row iobj) ≤ ny / 2) :
    unsplit_objects unsplit trajectory labels nobjects nx ny = trajectory := by
  unfold unsplit_objects
  apply list_foldl_fixed
  intro iobj hmem
  rw [List.mem_range] at hmem
  apply list_map_fixed
  intro row hrow
  unfold unsplitRow
  rw [if_neg]
  have hc := h iobj hmem row hrow
  simp only [spread_test, decide_eq_true_eq, not_or, not_lt]
  exact ⟨hc.1, hc.2⟩

/-- C8 witness: a single one-time object with two points at `x ∈ {0, 1}`
on an `8 × 8` grid is left unchanged (instantiated with an inner routine
that would wipe the object if it were ever called). -/
theorem unsplit_objects_noop_witness :
    (∀ iobj, iobj < 1 → ∀ row ∈ [[((0 : ℚ), 0, 0), ((1 : ℚ), 0, 0)]],
      maxX (objPositions [0, 0] row iobj) - minX (objPositions [0, 0] row iobj) ≤ 8 / 2 ∧
      maxY (objPositions [0, 0] row iobj) - minY (objPositions [0, 0] row iobj) ≤ 8 / 2) ∧
    unsplit_objects (fun _ => []) [[((0 : ℚ), 0, 0), ((1 : ℚ), 0, 0)]] [0, 0] 1 8 8 =
      [[((0 : ℚ), 0, 0), ((1 : ℚ), 0, 0)]] := by
  have h : ∀ iobj, iobj < 1 → ∀ row ∈ [[((0 : ℚ), 0, 0), ((1 : ℚ), 0, 0)]],
      maxX (objPositions [0, 0] row iobj) - minX (objPositions [0, 0] row iobj) ≤ 8 / 2 ∧
      maxY (objPositions [0, 0] row iobj) - minY (objPositions [0, 0] row iobj) ≤ 8 / 2 := by
    intro iobj hiobj row hrow
    interval_cases iobj
    rw [List.mem_singleton] at hrow
    subst hrow
    norm_num [objPositions, maxX, minX, maxY, minY, List.max?, List.min?]
  exact ⟨h, unsplit_objects_noop (fun _ => []) _ [0, 0] 1 8 8 h⟩

/-! ## Claim C9 -/

/-- Merging object `j` into object `i < j` and shifting the labels above
`j` down by one preserves the labelling invariant with one object fewer:
label `i` keeps its old cells (plus those of `j`), labels below `j` are untouched,
and each label above `j` moves down onto an occupied slot. -/
theorem relabel_inv (labs : List ℤ) (nobjs : ℕ) (i j : ℕ)
    (hij : i < j) (hjn : j < nobjs) (h : LabelInv labs nobjs) :
    LabelInv (relabel labs nobjs (i : ℤ) (j : ℤ)) (nobjs - 1) := by
  obtain ⟨h1, h2⟩ := h
  constructor
  · intro l hl
    rw [relabel, List.mem_map] at hl
    obtain ⟨l0, hl0, rfl⟩ := hl
    rcases h1 l0 hl0 with rfl | ⟨ha, hb⟩
    · left
      split_ifs <;> first | rfl | omega | assumption
    · right
      split_ifs <;> exact ⟨by omega, by omega⟩
  · intro m hm
    rw [relabel, List.mem_map]
    by_cases hmi : m = i
    · refine ⟨(i : ℤ), h2 i (by omega), ?_⟩
      split_ifs <;> omega
    · by_cases hmj : m < j
      · refine ⟨(m : ℤ), h2 m (by omega), ?_⟩
        split_ifs <;> omega
      · refine ⟨((m + 1 : ℕ) : ℤ), h2 (m + 1) (by omega), ?_⟩
        split_ifs <;> omega

/-- The inner merge loop preserves the labelling invariant: every merge it
performs relabels a pair `i < j < nobjs`. -/
theorem edgeInner_inv (minflag : Bool) (xy n : ℕ) (cells : List Cell)
    (posi : List Cell) (i : ℕ) :
    ∀ (fuel : ℕ) (labs : List ℤ) (nobjs j : ℕ), i < j → LabelInv labs nobjs →
      LabelInv (edgeInner minflag xy n cells posi i fuel labs nobjs j).1
        (edgeInner minflag xy n cells posi i fuel labs nobjs j).2 := by
  intro fuel
  induction fuel with
  | zero =>
    intro labs nobjs j hij h
    simpa [edgeInner] using h
  | succ fuel ih =>
    intro labs nobjs j hij h
    rw [edgeInner]
    by_cases h1 : j + 1 < nobjs
    · rw [if_pos h1]
      dsimp only
      split_ifs <;> first
        | exact ih _ _ _ (by omega) (relabel_inv labs nobjs i j hij (by omega) h)
        | exact ih _ _ _ (by omega) h
    · rw [if_neg h1]
      exact h

/-- The outer boundary-scan loop preserves the labelling invariant. -/
theorem edgeOuter_inv (minflag : Bool) (xy n : ℕ) (cells : List Cell) :
    ∀ (fuel : ℕ) (labs : List ℤ) (nobjs i : ℕ), LabelInv labs nobjs →
      LabelInv (edgeOuter minflag xy n cells fuel labs nobjs i).1
        (edgeOuter minflag xy n cells fuel labs nobjs i).2 := by
  intro fuel
  induction fuel with
  | zero =>
    intro labs nobjs i h
    simpa [edgeOuter] using h
  | succ fuel ih =>
    intro labs nobjs i h
    rw [edgeOuter]
    by_cases h1 : i + 2 < nobjs
    · rw [if_pos h1]
      dsimp only
      split_ifs <;> first
        | exact ih _ _ _
            (edgeInner_inv minflag xy n cells _ i nobjs labs nobjs (i + 1) (by omega) h)
        | exact ih _ _ _ h
    · rw [if_neg h1]
      exact h

/-- One whole `find_objects_at_edge` pass preserves the invariant. -/
theorem find_objects_at_edge_inv (minflag : Bool) (xy n : ℕ) (cells : List Cell)
    (labs : List ℤ) (nobjs : ℕ) (h : LabelInv labs nobjs) :
    LabelInv (find_objects_at_edge minflag xy n cells labs nobjs).1
      (find_objects_at_edge minflag xy n cells labs nobjs).2 :=
  edgeOuter_inv minflag xy n cells nobjs labs nobjs 0 h

/-- C9: for every input whose baseline labelling satisfies the contract of
the external component labeler (`ndimage.label`: values in `[0, K]` with
every object label `1..K` occupied), the label array returned by
`label_3D_cyclic` contains only `-1` and labels in the contiguous range
`[0, nobjects-1]` with every label in that range occupied; each
periodic-boundary merge preserves this contiguity (`relabel_inv`). -/
theorem label_3D_cyclic_labels_contiguous (nx ny : ℕ) (cells : List Cell)
    (labels0 : List ℕ) (nobjects0 : ℕ)
    (h1 : ∀ l ∈ labels0, l ≤ nobjects0)
    (h2 : ∀ m : ℕ, 1 ≤ m → m ≤ nobjects0 → m ∈ labels0) :
    LabelInv (label_3D_cyclic nx ny cells labels0 nobjects0).1
      (label_3D_cyclic nx ny cells labels0 nobjects0).2 := by
  have hinit : LabelInv (labels0.map (fun l : ℕ => (l : ℤ) - 1)) nobjects0 := by
    constructor
    · intro l hl
      rw [List.mem_map] at hl
      obtain ⟨l0, hl0, rfl⟩ := hl
      have := h1 l0 hl0
      rcases Nat.eq_zero_or_pos l0 with h0 | hp
      · left; omega
      · right; constructor <;> [omega; omega]
    · intro m hm
      rw [List.mem_map]
      exact ⟨m + 1, h2 (m + 1) (by omega) (by omega), by push_cast; ring⟩
  unfold label_3D_cyclic
  dsimp only
  exact find_objects_at_edge_inv _ _ _ _ _ _
    (find_objects_at_edge_inv _ _ _ _ _ _
      (find_objects_at_edge_inv _ _ _ _ _ _
        (find_objects_at_edge_inv _ _ _ _ _ _ hinit)))

/-- The raster-order cell list of a `4 × 3 × 1` grid. -/
def wcells : List Cell :=
  [(0, 0, 0), (0, 1, 0), (0, 2, 0), (1, 0, 0), (1, 1, 0), (1, 2, 0),
   (2, 0, 0), (2, 1, 0), (2, 2, 0), (3, 0, 0), (3, 1, 0), (3, 2, 0)]

/-- A baseline labelling of that grid with three objects: object `1` at
`(0,2)`, object `2` at `(2,2),(3,2)` (touching the `x = nx-1` edge, so it
merges with object `1` across the periodic seam), object `3` at `(3,0)`. -/
def wlabels0 : List ℕ := [0, 0, 1, 0, 0, 0, 0, 0, 2, 3, 0, 2]

/-- C9 witness: the invariant holds on the concrete `4 × 3 × 1` labelling,
whose run performs one periodic x-boundary merge. -/
theorem label_3D_cyclic_labels_contiguous_witness :
    ((∀ l ∈ wlabels0, l ≤ 3) ∧
      (∀ m : ℕ, 1 ≤ m → m ≤ 3 → m ∈ wlabels0)) ∧
    LabelInv (label_3D_cyclic 4 3 wcells wlabels0 3).1
      (label_3D_cyclic 4 3 wcells wlabels0 3).2 := by
  have h1 : ∀ l ∈ wlabels0, l ≤ 3 := by decide
  have h2 : ∀ m : ℕ, 1 ≤ m → m ≤ 3 → m ∈ wlabels0 := by
    intro m hm1 hm2
    interval_cases m <;> decide
  exact ⟨⟨h1, h2⟩, label_3D_cyclic_labels_contiguous 4 3 wcells wlabels0 3 h1 h2⟩
